import Mathlib

set_option autoImplicit false

namespace PTD

/-!
Shallow embedding of the PTD_Gen repository (src/generate_ptd.py and
src/modules/schedule_layout.py) and verification of the frozen claims.
Python strings that undergo character-level processing are modelled as
lists of Unicode code points (List Nat); plain string data is modelled
with String.  Workbooks are ordered lists of named sheets; worksheets
are value maps addressed by (row, column), 1-based, as in openpyxl.
-/

/-! ## src/generate_ptd.py, replace_sheets_in_template (lines 307-379) -/

/-- Python list.insert(i, x) semantics: inserts before position i, and
appends when i is at least the length of the list (openpyxl
Workbook.create_sheet with an index argument calls _sheets.insert). -/
def pyInsert {α : Type} (i : Nat) (x : α) (l : List α) : List α :=
  l.take i ++ x :: l.drop i

/-- Embedding of replace_sheets_in_template (src/generate_ptd.py lines
329-348): a workbook is the ordered list of (sheet name, content); the
content of the two generated sheets is abstracted as a Nat tag, since
the claim is about sheet order and untouched sheets.  Mirrors the code:
record index of the schedule sheet and remove it, then record the index
of the forms sheet in the ALREADY-MODIFIED list and remove it, then
create each destination sheet at its recorded index (create_sheet with
index inserts; with no recorded index it appends). -/
def replace_sheets_in_template (template : List (String × Nat))
    (schedName formsName : String) (schedContent formsContent : Nat) :
    List (String × Nat) :=
  let schedIdx := template.findIdx? (fun s => s.1 == schedName)
  let t1 := match schedIdx with
    | some _ => template.eraseP (fun s => s.1 == schedName)
    | none => template
  let formsIdx := t1.findIdx? (fun s => s.1 == formsName)
  let t2 := match formsIdx with
    | some _ => t1.eraseP (fun s => s.1 == formsName)
    | none => t1
  let t3 := match schedIdx with
    | some i => pyInsert i (schedName, schedContent) t2
    | none => t2 ++ [(schedName, schedContent)]
  match formsIdx with
  | some i => pyInsert i (formsName, formsContent) t3
  | none => t3 ++ [(formsName, formsContent)]

/-! ## src/generate_ptd.py, worksheet copying (lines 157-247) -/

/-- A rectangular merged-cell range, rows r1..r2 and columns c1..c2
(1-based, inclusive), with anchor (top-left) cell (r1, c1). -/
structure MergeRect where
  r1 : Nat
  c1 : Nat
  r2 : Nat
  c2 : Nat

/-- A cell is a non-anchor member of some merged range: it lies inside
the rectangle but is not its top-left cell.  openpyxl represents such a
cell as a MergedCell, whose value is always None. -/
def mergedNonAnchor (ms : List MergeRect) (r c : Nat) : Bool :=
  ms.any (fun m =>
    decide (m.r1 ≤ r ∧ r ≤ m.r2 ∧ m.c1 ≤ c ∧ c ≤ m.c2 ∧ ¬(r = m.r1 ∧ c = m.c1)))

/-- A source worksheet for the copy routines: dimensions, the cell value
map (none = empty cell / no value), and the merged ranges. -/
structure SrcSheet where
  maxRow : Nat
  maxCol : Nat
  val : Nat → Nat → Option String
  merged : List MergeRect

/-- Value, at destination address (r, c), produced by
_copy_worksheet_contents (src/generate_ptd.py lines 157-219): the loop
iterates src_ws.iter_rows() (rows 1..max_row, columns 1..max_column),
skips MergedCell instances (non-anchor members of merged ranges), and
writes each remaining cell value at the same address; addresses never
written read back as None.  Styles are ignored here, as in the claim. -/
def _copy_worksheet_contents (src : SrcSheet) (r c : Nat) : Option String :=
  if 1 ≤ r ∧ r ≤ src.maxRow ∧ 1 ≤ c ∧ c ≤ src.maxCol ∧
      mergedNonAnchor src.merged r c = false then
    src.val r c
  else none

/-- Value, at destination address (r, c), produced by
_copy_worksheet_values_only (src/generate_ptd.py lines 222-247): the
loop appends, for each source row 1..max_row, the row of values
(values_only=True, so a merged non-anchor cell contributes its stored
value None) into the empty destination sheet, positionally; then, when
the merge metadata of the source is available (mergesAvailable; the
try/except of lines 230-247 skips this step silently in reduced-memory
read mode), the merged ranges are re-created, which blanks every
non-anchor member of a merged range in the destination. -/
def _copy_worksheet_values_only (mergesAvailable : Bool) (src : SrcSheet)
    (r c : Nat) : Option String :=
  let appended := if 1 ≤ r ∧ r ≤ src.maxRow ∧ 1 ≤ c ∧ c ≤ src.maxCol then
    src.val r c else none
  if mergesAvailable && mergedNonAnchor src.merged r c then none else appended

/-! ## src/generate_ptd.py, auto_format_sheet (lines 382-432) -/

/-- Cell formatting state; each component is none when the cell carries
the openpyxl default (in particular fill = none models fill_type None,
the falsy default pattern fill). -/
structure CellFmt where
  font : Option String
  align : Option String
  fill : Option String
  border : Option String

/-- A worksheet as seen by auto_format_sheet: dimensions and the
formatting state of each (row, column) cell. -/
structure SheetFmt where
  maxRow : Nat
  maxCol : Nat
  cell : Nat → Nat → CellFmt

/-- The default header fill D9E1F2 (src/generate_ptd.py line 389). -/
def headerFillColor : String := "D9E1F2"

/-- Per-cell body of the header-row loop of auto_format_sheet
(src/generate_ptd.py lines 398-412): font, alignment and border are
always set; the header fill is applied only when the existing fill_type
is falsy (default), the row is not in skip_fill_rows, and the cell is
not in row 1 beyond column 4 (col_idx is always truthy for a real
cell, so beyond_ctdm reduces to r = 1 and col_idx > 4). -/
def auto_format_header_cell (r c : Nat) (skipFillRows : List Nat)
    (cell : CellFmt) : CellFmt :=
  let beyondCtdm := r = 1 ∧ 4 < c
  let fill2 := if cell.fill = none ∧ r ∉ skipFillRows ∧ ¬beyondCtdm then
    some headerFillColor else cell.fill
  { font := some "bold", align := some "center-wrap", fill := fill2,
    border := some "thin" }

/-- Embedding of auto_format_sheet (src/generate_ptd.py lines 382-432)
restricted to cell formatting: header_rows is clamped to
max(1, min(header_rows, max_row)); cells in rows 1..header_rows get
the header-cell treatment; cells in the remaining rows up to max_row
get wrap alignment and a border (their fill is not touched); all other
addresses are unchanged.  The final column-width pass writes only
column_dimensions, never a cell fill, and is omitted. -/
def auto_format_sheet (sheet : SheetFmt) (header_rows : Nat)
    (skipFillRows : List Nat) : SheetFmt :=
  let hr := max 1 (min header_rows sheet.maxRow)
  { sheet with cell := fun r c =>
      if 1 ≤ r ∧ r ≤ hr ∧ 1 ≤ c ∧ c ≤ sheet.maxCol then
        auto_format_header_cell r c skipFillRows (sheet.cell r c)
      else if hr + 1 ≤ r ∧ r ≤ sheet.maxRow ∧ 1 ≤ c ∧ c ≤ sheet.maxCol then
        { sheet.cell r c with align := some "wrap-center", border := some "thin" }
      else sheet.cell r c }

/-! ## src/modules/schedule_layout.py: cell value coercion (lines 281-284 and 322-325) -/

/-- A Python value as it can appear in a grid cell before writing:
a string, a float (modelled as an exact rational), the float NaN,
None, or an int.  pandas represents a missing table entry as NaN. -/
inductive PyVal where
  | vstr : String → PyVal
  | vfloat : Rat → PyVal
  | vnan : PyVal
  | vnone : PyVal
  | vint : Int → PyVal
deriving DecidableEq

/-- pd.isna: true exactly on NaN and None among the values above. -/
def pdIsna : PyVal → Bool
  | .vnan => true
  | .vnone => true
  | _ => false

/-- Python int(x) for a float x: truncation toward zero. -/
def pyTrunc (q : Rat) : Int :=
  if 0 ≤ q then q.floor else q.ceil

/-- Absolute value of a rational, written so that it evaluates. -/
def ratAbs (q : Rat) : Rat := if 0 ≤ q then q else -q

/-- Maximum of two rationals, written so that it evaluates. -/
def ratMax (a b : Rat) : Rat := if a ≤ b then b else a

/-- math.isclose(a, b) with the default rel_tol = 1e-9 and
abs_tol = 0.0: abs(a-b) is at most max(rel_tol * max(abs(a), abs(b)), abs_tol). -/
def mathIsclose (a b : Rat) : Bool :=
  decide (ratAbs (a - b) ≤ ratMax ((1 / 1000000000) * ratMax (ratAbs a) (ratAbs b)) 0)

/-- The per-cell coercion applied to every value written into the grid
body, from src/modules/schedule_layout.py lines 281-284 (dynamic
property rows) and 322-325 (form rows): a value for which pd.isna holds
becomes the empty string; then a float close (math.isclose) to its
integer truncation becomes that int. -/
def renderGridCell (v : PyVal) : PyVal :=
  let v1 := if pdIsna v then PyVal.vstr "" else v
  match v1 with
  | .vfloat x => if mathIsclose x (pyTrunc x : Rat) then .vint (pyTrunc x) else .vfloat x
  | w => w

/-! ## src/modules/schedule_layout.py: row-1 event-group merge runs (lines 170-190) -/

/-- Loop body of the row-1 merge builder: cur_group = g0 is the group
of the open run, start is the 0-based visit index where it began, j is
the index of the next visit to examine.  On a change of group the open
run is emitted as (start, j - 1, g0); when the visits are exhausted the
final run is emitted up to the last visit index. -/
def runsAux (g0 : String) (start j : Nat) : List String → List (Nat × Nat × String)
  | [] => [(start, j - 1, g0)]
  | g :: rest =>
    if g = g0 then runsAux g0 start (j + 1) rest
    else (start, j - 1, g0) :: runsAux g j (j + 1) rest

/-- Embedding of the row-1 event-group merge loop
(src/modules/schedule_layout.py lines 170-190), with 0-based visit
indices (the sheet column of visit j is col_start_visits + j): returns
the list of merge ranges (first index, last index, anchor value). -/
def mergeRuns : List String → List (Nat × Nat × String)
  | [] => []
  | g :: rest => runsAux g 0 1 rest

/-- The ranges rs form a contiguous ordered chain starting at s: the
first range starts at s, every range has start ≤ end, and each
subsequent range starts right after the previous one ends. -/
def rangesChain (s : Nat) : List (Nat × Nat × String) → Prop
  | [] => True
  | (a, b, _) :: rest => a = s ∧ a ≤ b ∧ rangesChain (b + 1) rest

/-- Every member column of every range holds exactly the anchor value
of that range. -/
def rangeValuesOk (gs : List String) (rs : List (Nat × Nat × String)) : Prop :=
  ∀ r ∈ rs, ∀ j, r.1 ≤ j → j ≤ r.2.1 → gs[j]? = some r.2.2

/-- Adjacent ranges carry different values (a change in group value is
what starts a new range). -/
def adjChange : List (Nat × Nat × String) → Prop
  | (_, _, v1) :: (a, b, v2) :: rest => v1 ≠ v2 ∧ adjChange ((a, b, v2) :: rest)
  | _ => True

/-- Index of the last column covered by the ranges (d when empty). -/
def endOfRuns (d : Nat) (rs : List (Nat × Nat × String)) : Nat :=
  match rs.getLast? with
  | some p => p.2.1
  | none => d

/-- Number of ranges of rs that cover column j. -/
def coverCount (rs : List (Nat × Nat × String)) (j : Nat) : Nat :=
  (rs.filter (fun r => decide (r.1 ≤ j ∧ j ≤ r.2.1))).length

/-! ## src/modules/schedule_layout.py: header row 2 long labels (lines 146-160) -/

/-- The label computed for one event-name code by the if/elif chain of
src/modules/schedule_layout.py lines 149-156, or none when no branch
applies (the chain has no else, so in that case the Python variable
event_label is left holding its previous value). -/
def codeLabel (en : String) : Option String :=
  if en = "SCRN" then some "Screening"
  else if en = "RAND" then some "Randomisation"
  else if 'V' ∈ en.data then some ("Visit " ++ String.mk (en.data.drop 1))
  else if 'P' ∈ en.data then some ("Phone Visit " ++ String.mk (en.data.drop 1))
  else none

/-- Row-2 loop of src/modules/schedule_layout.py lines 147-160, with st
the current value of the Python local event_label (none before the
first assignment).  Each iteration writes the current event_label into
the row-2 cell; when no branch of the chain applies and event_label was
never assigned, Python raises NameError, modelled as none. -/
def row2Aux (st : Option String) : List String → Option (List String)
  | [] => some []
  | en :: rest =>
    match (codeLabel en).orElse (fun _ => st) with
    | none => none
    | some l => (row2Aux (some l) rest).map (fun tl => l :: tl)

/-- The values written in header row 2 over the visit columns, given
the derived short event-name codes; none means the build raises. -/
def row2Labels (eventNames : List String) : Option (List String) :=
  row2Aux none eventNames

/-- Modelled from the claim wording (spec section 4.1, row 2): the
long label of one code, with the no-match case leaving the cell unset. -/
def specCodeLabel (en : String) : Option String :=
  if en = "SCRN" then some "Screening"
  else if en = "RAND" then some "Randomisation"
  else if en.data.head? = some 'V' then some ("Visit " ++ String.mk (en.data.drop 1))
  else if en.data.head? = some 'P' then some ("Phone Visit " ++ String.mk (en.data.drop 1))
  else none

/-- Modelled from the claim wording: row 2 per visit column, where an
unmatched code leaves the cell unset (none). -/
def specRow2Labels (eventNames : List String) : List (Option String) :=
  eventNames.map specCodeLabel

/-! ## src/modules/schedule_layout.py: Triggering Form row (lines 257-267) -/

/-- Loop over visit columns for the "Triggering: Form" attribute row
(src/modules/schedule_layout.py lines 240-287, branch at 257-267), j
being the 0-based index of the first element of the remaining suffix of
event names.  A cell value of none means the loop never executed the
cell write for that column.  When the event name is "RAND" the written
value is ELIGIBILITY_CRITERIA; when j is strictly after rand_idx and
the visit label contains the character V, the code sets mapped_value to
RANDOMISATION and immediately executes break, so neither this cell nor
any later cell of the row is written; otherwise the cell is written
with the empty string. -/
def tfGo (labels : List String) (randIdx : Nat) : Nat → List String → List (Option String)
  | _, [] => []
  | j, en :: rest =>
    if en = "RAND" then some "ELIGIBILITY_CRITERIA" :: tfGo labels randIdx (j + 1) rest
    else if randIdx < j ∧ 'V' ∈ (labels.getD j "").data then
      none :: rest.map (fun _ => none)
    else some "" :: tfGo labels randIdx (j + 1) rest

/-- The "Triggering: Form" row over the visit columns, as produced by
the code (none = cell left unwritten). -/
def triggeringFormRow (eventNames labels : List String) (randIdx : Nat) :
    List (Option String) :=
  tfGo labels randIdx 0 eventNames

/-- Modelled from the claim wording (spec section 4.1, Triggering:
Form): the rule applied uniformly to every visit column. -/
def specTriggeringFormRow (eventNames labels : List String) (randIdx : Nat) :
    List String :=
  (List.range eventNames.length).map (fun j =>
    if j = randIdx then "ELIGIBILITY_CRITERIA"
    else if randIdx < j ∧ 'V' ∈ (labels.getD j "").data then "RANDOMISATION"
    else "")

/-- First 0-based column index at which the Triggering Form loop
executes break (length of the list when it never breaks): the first j
whose event name is not "RAND", with randIdx < j and the letter V in
the visit label. -/
def tfBreakGo (labels : List String) (randIdx : Nat) : Nat → List String → Nat
  | j, [] => j
  | j, en :: rest =>
    if en = "RAND" then tfBreakGo labels randIdx (j + 1) rest
    else if randIdx < j ∧ 'V' ∈ (labels.getD j "").data then j
    else tfBreakGo labels randIdx (j + 1) rest

/-- Break index of the Triggering Form row, counted from column 0. -/
def tfBreakIdx (eventNames labels : List String) (randIdx : Nat) : Nat :=
  tfBreakGo labels randIdx 0 eventNames

/-! ## src/modules/schedule_layout.py: make_event_name (lines 19-46)

Python strings are modelled as lists of code points.  The regex
character classes are the ASCII fragments of \d, \s and \w, which
cover every string occurring in the repository data flow. -/

/-- Code points of a string literal. -/
def codes (s : String) : List Nat := s.data.map Char.toNat

/-- Python str.lower on one ASCII code point. -/
def pyLowerCh (n : Nat) : Nat :=
  if 65 ≤ n ∧ n ≤ 90 then n + 32 else n

/-- ASCII whitespace (the characters stripped by str.strip and matched
by the regex class \s). -/
def pySpace (n : Nat) : Bool :=
  n == 32 || n == 9 || n == 10 || n == 13 || n == 11 || n == 12

/-- Python str.strip(): remove leading and trailing whitespace. -/
def pyStrip (l : List Nat) : List Nat :=
  ((l.dropWhile pySpace).reverse.dropWhile pySpace).reverse

/-- str(x).strip().lower(), as applied to group and label on lines 23-24. -/
def pyStripLower (l : List Nat) : List Nat :=
  (pyStrip l).map pyLowerCh

/-- str(x).lower() without strip, as applied on line 80 when locating
the randomisation index and on line 245 for the Visit Dynamics row. -/
def pyLowerL (l : List Nat) : List Nat := l.map pyLowerCh

/-- needle is a prefix of hay. -/
def startsWithL : List Nat → List Nat → Bool
  | [], _ => true
  | _ :: _, [] => false
  | a :: as, b :: bs => a == b && startsWithL as bs

/-- Python substring containment (needle in hay). -/
def subIn : List Nat → List Nat → Bool
  | needle, [] => startsWithL needle []
  | needle, c :: rest => startsWithL needle (c :: rest) || subIn needle rest

/-- Regex class \d, ASCII digits. -/
def isDigitCh (n : Nat) : Bool := 48 ≤ n && n ≤ 57

/-- Regex class \w, ASCII letters, digits and underscore. -/
def isWordCh (n : Nat) : Bool :=
  isDigitCh n || (65 ≤ n && n ≤ 90) || (97 ≤ n && n ≤ 122) || n == 95

/-- The word boundary \b holds immediately before a word character at
the current position exactly when the preceding character (none at the
start of the string) is not a word character. -/
def atWordStart (prev : Option Nat) : Bool :=
  match prev with
  | none => true
  | some p => !(isWordCh p)

/-- Matches the regex tail \s*?(\d+)\b against a suffix: the lazy
whitespace star can only stop where a digit follows, which is the end
of the maximal whitespace run; the digit group is greedy and maximal
(stopping earlier would put \b between two digits, which fails); the
final \b needs the next character to be a non-word character or the end
of the string.  Returns (consumed characters, digit group). -/
def tailNumMatch (s : List Nat) : Option (List Nat × List Nat) :=
  let ws := s.takeWhile pySpace
  let rest := s.drop ws.length
  let digs := rest.takeWhile isDigitCh
  if digs.isEmpty then none
  else
    match rest.drop digs.length with
    | [] => some (ws ++ digs, digs)
    | a :: _ => if isWordCh a then none else some (ws ++ digs, digs)

/-- Attempt to match \bV\s*?(\d+)\b at the current position, prev being
the preceding character.  86 is the code of V.  Returns
(group 0, group 1) on success. -/
def matchVNumAt (prev : Option Nat) (s : List Nat) : Option (List Nat × List Nat) :=
  match s with
  | [] => none
  | c :: rest =>
    if c = 86 ∧ atWordStart prev = true then
      match tailNumMatch rest with
      | some (consumed, digs) => some (c :: consumed, digs)
      | none => none
    else none

/-- Attempt to match \bVisit\s*?(\d+)\b at the current position. -/
def matchVisitNumAt (prev : Option Nat) (s : List Nat) : Option (List Nat × List Nat) :=
  if atWordStart prev = true ∧ startsWithL (codes "Visit") s = true then
    match tailNumMatch (s.drop 5) with
    | some (consumed, digs) => some (codes "Visit" ++ consumed, digs)
    | none => none
  else none

/-- Attempt to match \bP(\d+)\b at the current position.  80 is the
code of P. -/
def matchPNumAt (prev : Option Nat) (s : List Nat) : Option (List Nat × List Nat) :=
  match s with
  | [] => none
  | c :: rest =>
    if c = 80 ∧ atWordStart prev = true then
      let digs := rest.takeWhile isDigitCh
      if digs.isEmpty then none
      else
        match rest.drop digs.length with
        | [] => some (c :: digs, digs)
        | a :: _ => if isWordCh a then none else some (c :: digs, digs)
    else none

/-- re.search for \bV\s*?(\d+)\b: leftmost match over all start positions. -/
def searchVNum (prev : Option Nat) : List Nat → Option (List Nat × List Nat)
  | [] => matchVNumAt prev []
  | c :: rest =>
    match matchVNumAt prev (c :: rest) with
    | some r => some r
    | none => searchVNum (some c) rest

/-- re.search for \bVisit\s*?(\d+)\b. -/
def searchVisitNum (prev : Option Nat) : List Nat → Option (List Nat × List Nat)
  | [] => matchVisitNumAt prev []
  | c :: rest =>
    match matchVisitNumAt prev (c :: rest) with
    | some r => some r
    | none => searchVisitNum (some c) rest

/-- re.search for \bP(\d+)\b. -/
def searchPNum (prev : Option Nat) : List Nat → Option (List Nat × List Nat)
  | [] => matchPNumAt prev []
  | c :: rest =>
    match matchPNumAt prev (c :: rest) with
    | some r => some r
    | none => searchPNum (some c) rest

/-- Decimal digits of n (ASCII codes), as in Python str(n) for n ≥ 0;
the first argument is structural fuel, always sufficient at n + 1. -/
def natDigitsGo : Nat → Nat → List Nat
  | 0, _ => []
  | fuel + 1, n => if n < 10 then [48 + n] else natDigitsGo fuel (n / 10) ++ [48 + n % 10]

/-- Decimal representation of n as code points. -/
def natDigits (n : Nat) : List Nat := natDigitsGo (n + 1) n

/-- The format field, an opening brace, the word number, a closing brace. -/
def numberPat : List Nat := 123 :: codes "number" ++ [125]

/-- Python tmpl.format(number=digs): every occurrence of the field
numberPat in the template is replaced by the digit string. -/
def formatNumber (tmpl digs : List Nat) : List Nat :=
  match tmpl with
  | [] => []
  | c :: rest =>
    if startsWithL numberPat (c :: rest) then digs ++ formatNumber (rest.drop 7) digs
    else c :: formatNumber rest digs
termination_by tmpl.length
decreasing_by
  · simp [List.length_drop]; omega
  · simp

/-- The event_name_mapping sub-dictionary of the configuration
(config.get with per-key defaults applied in make_event_name). -/
structure EventNameConfig where
  screening : Option (List Nat) := none
  random : Option (List Nat) := none
  rtsm : Option (List Nat) := none
  visit_pattern : Option (List Nat) := none
  phone_pattern : Option (List Nat) := none

/-- Embedding of make_event_name (src/modules/schedule_layout.py lines
19-46).  g and s are the stripped, lowercased group and label; the
explicit overrides test substring containment of screen, random, rtsm
in g; otherwise the three regexes are searched in s in order, and on a
match the phone template is used exactly when the code of P occurs in
group 0 of the match; otherwise the result is V followed by idx + 1. -/
def make_event_name (group label : List Nat) (idx : Nat) (cfg : EventNameConfig) :
    List Nat :=
  let g := pyStripLower group
  let s := pyStripLower label
  if subIn (codes "screen") g then cfg.screening.getD (codes "SCRN")
  else if subIn (codes "random") g then cfg.random.getD (codes "RAND")
  else if subIn (codes "rtsm") g then cfg.rtsm.getD (codes "RTSM")
  else
    match (searchVNum none s).orElse
        (fun _ => (searchVisitNum none s).orElse (fun _ => searchPNum none s)) with
    | some (g0, g1) =>
      if 80 ∈ g0 then formatNumber (cfg.phone_pattern.getD (80 :: numberPat)) g1
      else formatNumber (cfg.visit_pattern.getD (86 :: numberPat)) g1
    | none => 86 :: natDigits (idx + 1)

/-! ## src/modules/schedule_layout.py: build_schedule_layout (lines 49-351)

The grid is modelled at the value level over the visit-column region
(the sheet column of visit j is col_start_visits + j); the constant
left header columns, the RTSM column and the extra-header tail carry
fixed values and are not needed by any claim.  A cell is none when the
code never writes it. -/

/-- Decode a list of code points back to a string. -/
def decodeCodes (l : List Nat) : String := String.mk (l.map Char.ofNat)

/-- The visits table read from the visit-schedule workbook: the Event
Group and Visit Name columns (always present, lines 69-70) and the four
optional window columns (none when absent from the dataframe). -/
structure VisitsTable where
  groups : List String
  labels : List String
  offsetType : Option (List PyVal) := none
  offsetDays : Option (List PyVal) := none
  dayRangeEarly : Option (List PyVal) := none
  dayRangeLate : Option (List PyVal) := none

/-- The forms table read from the forms CSV: one record per row, a
record being a lookup from column name to value (none when the column
is absent from r.index). -/
structure FormsTable where
  rows : List (String → Option PyVal)

/-- Derived event names, one per visit (lines 74-75). -/
def eventNamesOf (cfg : EventNameConfig) (groups labels : List String) : List String :=
  (List.range labels.length).map (fun i =>
    decodeCodes (make_event_name (codes (groups.getD i "")) (codes (labels.getD i "")) i cfg))

/-- First index whose group contains "random" case-insensitively, 0
when there is none (lines 78-84). -/
def randIdxOf (groups : List String) : Nat :=
  match groups.findIdx? (fun g => subIn (codes "random") (pyLowerL (codes g))) with
  | some i => i
  | none => 0

/-- The Visit Dynamics attribute row (lines 244-247): Y when j is at
least the randomisation index and the lowercased group contains
neither "end of treatment" nor "end of study". -/
def visitDynamicsRow (groups : List String) (randIdx : Nat) : List String :=
  (List.range groups.length).map (fun j =>
    let eg := pyLowerL (codes (groups.getD j ""))
    if randIdx ≤ j ∧ subIn (codes "end of treatment") eg = false ∧
        subIn (codes "end of study") eg = false then "Y" else "")

/-- The Triggering Event attribute row (lines 249-255). -/
def triggeringEventRow (ens : List String) : List String :=
  (List.range ens.length).map (fun j =>
    let en := ens.getD j ""
    if en = "RAND" then "SCRN"
    else if en.data.head? = some 'V' ∧ 0 < j then ens.getD (j - 1) ""
    else if decodeCodes (pyLowerL (codes en)) = "follow-up" then "EOT"
    else "")

/-- An Event Window attribute row pulled from an optional dataframe
column (lines 272-279): blank everywhere when the column is absent,
otherwise the per-visit value (row.get default "") coerced by
renderGridCell (lines 281-284). -/
def offsetValueRow (n : Nat) (col : Option (List PyVal)) : List PyVal :=
  (List.range n).map (fun j =>
    match col with
    | some vs => renderGridCell (vs.getD j (.vstr ""))
    | none => renderGridCell (.vstr ""))

/-- One form row over the visit columns (lines 313-326): the lookup
tries the visit label first, then the event-name code, then the empty
string, and the result is coerced by renderGridCell. -/
def formRowCells (labels ens : List String) (r : String → Option PyVal) : List PyVal :=
  (List.range labels.length).map (fun j =>
    let v := match r (labels.getD j "") with
      | some w => w
      | none => match r (ens.getD j "") with
        | some w => w
        | none => PyVal.vstr ""
    renderGridCell v)

/-- Row-1 cells over the visit columns: each merge range writes its
anchor value at its first column; the other member columns hold no
value of their own. -/
def row1Cells (gs : List String) : List (Option String) :=
  ((mergeRuns gs).map (fun r =>
    some r.2.2 :: List.replicate (r.2.1 - r.1) (none : Option String))).flatten

/-- The in-memory grid: rows of optional cell values over the visit
columns. -/
def Grid : Type := List (List (Option PyVal))

/-- The grid content assembled by build_schedule_layout (header rows
1-3, the nine attribute rows in order, the literal RTSM row whose visit
columns are never written, then one row per form record).  none means
the Python build raises NameError in the row-2 loop before saving. -/
def gridOf (cfg : EventNameConfig) (dfv : VisitsTable) (dff : FormsTable) : Option Grid :=
  let ens := eventNamesOf cfg dfv.groups dfv.labels
  let ridx := randIdxOf dfv.groups
  let n := dfv.labels.length
  match row2Labels ens with
  | none => none
  | some row2 =>
    some ([(row1Cells dfv.groups).map (fun c => c.map PyVal.vstr),
      row2.map (fun l => some (PyVal.vstr l)),
      ens.map (fun e => some (PyVal.vstr e)),
      (visitDynamicsRow dfv.groups ridx).map (fun v => some (renderGridCell (PyVal.vstr v))),
      (triggeringEventRow ens).map (fun v => some (renderGridCell (PyVal.vstr v))),
      (triggeringFormRow ens dfv.labels ridx).map
        (fun c => c.map (fun v => renderGridCell (PyVal.vstr v))),
      List.replicate n (some (renderGridCell (PyVal.vstr ""))),
      List.replicate n (some (renderGridCell (PyVal.vstr "Y"))),
      (offsetValueRow n dfv.offsetType).map some,
      (offsetValueRow n dfv.offsetDays).map some,
      (offsetValueRow n dfv.dayRangeEarly).map some,
      (offsetValueRow n dfv.dayRangeLate).map some,
      List.replicate n (none : Option PyVal)]
      ++ dff.rows.map (fun r => (formRowCells dfv.labels ens r).map some))

/-- Embedding of build_schedule_layout (src/modules/schedule_layout.py
lines 49-351) at the file-system level.  fs is the map of written
workbook files.  The two reads are attempted first, inside the try
block of lines 57-62 whose except clause re-raises; a read failure
propagates the underlying error and nothing is written.  On success the
grid is assembled in memory and wb.save(output_xlsx) (line 349) writes
the single output file; a NameError raised while assembling also
propagates with nothing written. -/
def build_schedule_layout (readVisits : Except String VisitsTable)
    (readForms : Except String FormsTable) (fs : List (String × Grid))
    (outPath : String) (cfg : EventNameConfig) :
    List (String × Grid) × Except String String :=
  match readVisits with
  | .error e => (fs, .error e)
  | .ok dfv =>
    match readForms with
    | .error e => (fs, .error e)
    | .ok dff =>
      match gridOf cfg dfv dff with
      | none => (fs, .error "NameError")
      | some grid => ((outPath, grid) :: fs, .ok outPath)

/-! ## Concrete instances used to instantiate theorems with hypotheses -/

/-- A two-by-two source sheet whose first row merges columns 1-2; the
merged-away cell (1,2) stores no value, as openpyxl guarantees. -/
def exSheet : SrcSheet :=
  { maxRow := 2, maxCol := 2,
    val := fun r c => if r = 1 ∧ c = 1 then some "A" else
      if r = 2 ∧ c = 1 then some "B" else none,
    merged := [⟨1, 1, 1, 2⟩] }

/-- A formatted sheet with a pre-existing fill on the row-1 cell of
column 2 and default formatting elsewhere. -/
def exFmtSheet : SheetFmt :=
  { maxRow := 5, maxCol := 9,
    cell := fun r c =>
      if r = 1 ∧ c = 2 then
        { font := none, align := none, fill := some "FFFF00", border := none }
      else { font := none, align := none, fill := none, border := none } }

/-! # Verification of the claims -/

/-- Maximum with zero is nonnegative. -/
theorem ratMax_zero_nonneg (M : Rat) : 0 ≤ ratMax M 0 := by
  unfold ratMax
  split
  · exact le_refl 0
  · rename_i h
    exact le_of_not_le h

/-- math.isclose is reflexive (distance zero, tolerance nonnegative). -/
theorem mathIsclose_self (a : Rat) : mathIsclose a a = true := by
  unfold mathIsclose
  have h1 : ratAbs (a - a) = 0 := by simp [ratAbs]
  rw [h1]
  exact decide_eq_true (ratMax_zero_nonneg _)

/-- C2: the claim states that a pre-existing target sheet is replaced
at its original sheet-order index and that every non-target sheet keeps
its name, index and content.  The code records the forms-sheet index
only after removing the schedule sheet and inserts into the shrunken
list, so for a template ordered [Schedule Grid, A, Study Specific
Forms] the output is [Schedule Grid, Study Specific Forms, A]: the
non-target sheet A moves from index 1 to index 2 and the forms
replacement lands at index 1 instead of 2.  This theorem evaluates the
embedded code at that failing input. -/
theorem C2_failing_eval :
    replace_sheets_in_template
      [("Schedule Grid", 10), ("A", 11), ("Study Specific Forms", 12)]
      "Schedule Grid" "Study Specific Forms" 20 21
      = [("Schedule Grid", 20), ("Study Specific Forms", 21), ("A", 11)] := by
  decide

/-- C6: for every source worksheet (with the openpyxl invariant that a
merged non-anchor cell stores no value), the fast values-only copy --
whether or not the merge metadata was available for re-creation -- and
the full-fidelity copy produce destination sheets whose cell values
agree at every (row, column) address, styles ignored. -/
theorem C6_copy_modes_agree (src : SrcSheet)
    (hinv : ∀ r c, mergedNonAnchor src.merged r c = true → src.val r c = none) :
    ∀ (mergesAvailable : Bool) (r c : Nat),
      _copy_worksheet_contents src r c = _copy_worksheet_values_only mergesAvailable src r c := by
  intro ma r c
  unfold _copy_worksheet_contents _copy_worksheet_values_only
  by_cases hm : mergedNonAnchor src.merged r c = true
  · simp [hm, hinv r c hm]
  · rw [Bool.not_eq_true] at hm
    simp [hm]

/-- Witness for C6 at a concrete sheet with one merged range. -/
theorem C6_witness :
    (∀ r c, mergedNonAnchor exSheet.merged r c = true → exSheet.val r c = none)
    ∧ ∀ (mergesAvailable : Bool) (r c : Nat),
      _copy_worksheet_contents exSheet r c = _copy_worksheet_values_only mergesAvailable exSheet r c := by
  have hinv : ∀ r c, mergedNonAnchor exSheet.merged r c = true → exSheet.val r c = none := by
    intro r c h
    simp only [exSheet, mergedNonAnchor, List.any_cons, List.any_nil, Bool.or_false,
      decide_eq_true_eq] at h
    obtain ⟨h1, h2, h3, h4, h5⟩ := h
    simp only [exSheet]
    have hr1 : r = 1 := by omega
    have hc2 : c = 2 := by
      rcases Nat.lt_or_ge c 2 with hc | hc
      · exfalso
        exact h5 ⟨hr1, by omega⟩
      · omega
    subst hr1; subst hc2
    simp
  exact ⟨hinv, C6_copy_modes_agree exSheet hinv⟩

/-- C7: auto_format_sheet never overrides a pre-existing non-default
fill on a header-row cell (here stated for every cell: the data-row
pass never touches fills at all), and never applies the default header
fill to a row-1 cell whose column index exceeds 4; such cells keep
their prior fill. -/
theorem C7_auto_format_preserves_fills (sheet : SheetFmt) (header_rows : Nat)
    (skipFillRows : List Nat) (r c : Nat) :
    ((sheet.cell r c).fill ≠ none →
      ((auto_format_sheet sheet header_rows skipFillRows).cell r c).fill
        = (sheet.cell r c).fill)
    ∧ (r = 1 → 4 < c →
      ((auto_format_sheet sheet header_rows skipFillRows).cell r c).fill
        = (sheet.cell r c).fill) := by
  unfold auto_format_sheet auto_format_header_cell
  constructor
  · intro hfill
    dsimp only
    split
    · simp [hfill]
    · split
      · rfl
      · rfl
  · intro hr hc
    dsimp only
    split
    · have hno : ¬((sheet.cell r c).fill = none ∧ r ∉ skipFillRows ∧ ¬(r = 1 ∧ 4 < c)) :=
        fun h => h.2.2 ⟨hr, hc⟩
      simp [hno]
      intro h1 h2 h3
      exact absurd (h3 hr) (by omega)
    · split
      · rfl
      · rfl

/-- Witness for C7: a concrete sheet where the row-1 column-2 cell has
a pre-existing fill (kept) and the row-1 column-7 cell lies beyond
column 4 (fill untouched). -/
theorem C7_witness :
    ((exFmtSheet.cell 1 2).fill ≠ none
      ∧ ((auto_format_sheet exFmtSheet 3 []).cell 1 2).fill = (exFmtSheet.cell 1 2).fill)
    ∧ ((auto_format_sheet exFmtSheet 3 []).cell 1 7).fill = (exFmtSheet.cell 1 7).fill := by
  have h2 : (exFmtSheet.cell 1 2).fill ≠ none := by simp [exFmtSheet]
  exact ⟨⟨h2, (C7_auto_format_preserves_fills exFmtSheet 3 [] 1 2).1 h2⟩,
    (C7_auto_format_preserves_fills exFmtSheet 3 [] 1 7).2 rfl (by omega)⟩

/-- C8: for every value written into the grid body, a float equal to
its integer truncation is written as that integer (the equality makes
math.isclose hold, so the int coercion fires), and a missing or NaN
value is written as the empty string, never as the literal text nan or
NaN. -/
theorem C8_grid_value_rendering :
    (∀ x : Rat, x = (pyTrunc x : Rat) → renderGridCell (.vfloat x) = .vint (pyTrunc x))
    ∧ renderGridCell .vnan = .vstr ""
    ∧ renderGridCell .vnone = .vstr ""
    ∧ renderGridCell .vnan ≠ .vstr "nan"
    ∧ renderGridCell .vnan ≠ .vstr "NaN" := by
  refine ⟨?_, rfl, rfl, by decide, by decide⟩
  intro x h
  have hc : mathIsclose x (pyTrunc x : Rat) = true := by
    rw [← h]
    exact mathIsclose_self x
  simp [renderGridCell, pdIsna, hc]

/-- Witness for C8: the integral float 3.0 renders as the integer 3. -/
theorem C8_witness :
    (3 : Rat) = (pyTrunc 3 : Rat) ∧ renderGridCell (.vfloat 3) = .vint (pyTrunc 3) := by
  have h : (3 : Rat) = (pyTrunc 3 : Rat) := by decide
  exact ⟨h, C8_grid_value_rendering.1 3 h⟩

/-- C9: if reading either input table fails, build_schedule_layout
propagates the underlying read error to the caller and the file system
is unchanged: no output workbook is created or modified. -/
theorem C9_read_error_propagates (readVisits : Except String VisitsTable)
    (readForms : Except String FormsTable) (fs : List (String × Grid))
    (outPath : String) (cfg : EventNameConfig) (e : String) :
    (readVisits = .error e →
      build_schedule_layout readVisits readForms fs outPath cfg = (fs, .error e))
    ∧ (∀ dfv, readVisits = .ok dfv → readForms = .error e →
      build_schedule_layout readVisits readForms fs outPath cfg = (fs, .error e)) := by
  constructor
  · intro h
    subst h
    rfl
  · intro dfv h1 h2
    subst h1
    subst h2
    rfl

/-- Witness for C9: a failing visits read leaves the file system
untouched and surfaces the read error. -/
theorem C9_witness :
    build_schedule_layout (Except.error "read failed")
      (Except.ok { rows := [] }) [] "output.xlsx" {}
      = ([], Except.error "read failed") :=
  (C9_read_error_propagates (Except.error "read failed") (Except.ok { rows := [] })
    [] "output.xlsx" {} "read failed").1 rfl

/-- Characterization of the row-2 loop: when it completes without a
NameError, each written cell is the label of its own code when the
if/elif chain matches, and otherwise repeats the previously written
cell (the stale Python local), the first cell falling back to the
incoming state. -/
theorem row2Aux_spec (ens : List String) : ∀ (st : Option String) (cells : List String),
    row2Aux st ens = some cells →
    cells.length = ens.length ∧
    ∀ j en, ens[j]? = some en →
      (codeLabel en ≠ none → cells[j]? = codeLabel en) ∧
      (codeLabel en = none →
        (j = 0 → cells[j]? = st) ∧ (0 < j → cells[j]? = cells[j - 1]?)) := by
  induction ens with
  | nil =>
    intro st cells h
    simp only [row2Aux, Option.some.injEq] at h
    subst h
    refine ⟨rfl, fun j en hj => ?_⟩
    simp at hj
  | cons en0 rest ih =>
    intro st cells h
    simp only [row2Aux] at h
    rcases hmatch : (codeLabel en0).orElse (fun _ => st) with _ | l
    · rw [hmatch] at h
      exact absurd h (by simp)
    · rw [hmatch] at h
      obtain ⟨tl, htl, hcells⟩ := Option.map_eq_some'.mp h
      subst hcells
      obtain ⟨hlen, hspec⟩ := ih (some l) tl htl
      have hl0 : codeLabel en0 = some l ∨ (codeLabel en0 = none ∧ st = some l) := by
        rcases hcl : codeLabel en0 with _ | l2
        · right
          rw [hcl] at hmatch
          exact ⟨rfl, by simpa [Option.orElse] using hmatch⟩
        · left
          rw [hcl] at hmatch
          simpa [Option.orElse] using hmatch
      refine ⟨by simpa using hlen, fun j en hj => ?_⟩
      match j with
      | 0 =>
        simp only [List.getElem?_cons_zero, Option.some.injEq] at hj
        subst hj
        constructor
        · intro hne
          rcases hl0 with hcl | ⟨hcl, hst⟩
          · simp [hcl]
          · exact absurd hcl hne
        · intro hnone
          rcases hl0 with hcl | ⟨hcl, hst⟩
          · rw [hcl] at hnone
            exact absurd hnone (by simp)
          · exact ⟨fun _ => by simp [hst], fun habs => absurd habs (by omega)⟩
      | Nat.succ k =>
        simp only [List.getElem?_cons_succ] at hj
        obtain ⟨ha, hb⟩ := hspec k en hj
        constructor
        · intro hne
          simpa using ha hne
        · intro hnone
          obtain ⟨h0, hpos⟩ := hb hnone
          refine ⟨fun habs => absurd habs (by omega), fun _ => ?_⟩
          match k with
          | 0 =>
            have := h0 rfl
            simp only [List.getElem?_cons_succ, List.getElem?_cons_zero]
            simpa using this
          | Nat.succ m =>
            have := hpos (by omega)
            simp only [List.getElem?_cons_succ]
            simpa using this

/-- C4 (amended): for every visit column, the header row-2 cell is
derived from the short event-name code by the source chain (SCRN gives
Screening, RAND gives Randomisation, a code containing V gives
Visit followed by the code after its first character, then likewise
for P and Phone Visit); but a code matching none of these patterns
does NOT leave the cell unset: the cell repeats the previous visit
column's label, and if the very first code matches nothing the build
raises NameError (row2Labels returns none, so no cell list exists). -/
theorem C4_row2_long_labels (ens cells : List String)
    (h : row2Labels ens = some cells) :
    cells.length = ens.length ∧
    ∀ j en, ens[j]? = some en →
      (codeLabel en ≠ none → cells[j]? = codeLabel en) ∧
      (codeLabel en = none → 0 < j ∧ cells[j]? = cells[j - 1]?) := by
  obtain ⟨hlen, hspec⟩ := row2Aux_spec ens none cells h
  refine ⟨hlen, fun j en hj => ?_⟩
  obtain ⟨ha, hb⟩ := hspec j en hj
  refine ⟨ha, fun hnone => ?_⟩
  obtain ⟨h0, hpos⟩ := hb hnone
  rcases Nat.eq_zero_or_pos j with hj0 | hjpos
  · exfalso
    subst hj0
    have hcontra := h0 rfl
    have hlt : 0 < ens.length := by
      rcases List.getElem?_eq_some.mp hj with ⟨hw, _⟩
      omega
    have hle := List.getElem?_eq_none_iff.mp hcontra
    omega
  · exact ⟨hjpos, hpos hjpos⟩

/-- C4 counterexample: with codes [SCRN, RTSM] the second code matches
no branch; the claim says its row-2 cell is left unset, but the code
writes the stale previous label Screening into it. -/
theorem C4_counterexample :
    row2Labels ["SCRN", "RTSM"] = some ["Screening", "Screening"]
    ∧ specRow2Labels ["SCRN", "RTSM"] = [some "Screening", none] := by
  decide

/-- Witness for C4 at the concrete input [SCRN, RTSM], column 1. -/
theorem C4_witness :
    0 < 1 ∧ (["Screening", "Screening"] : List String)[1]?
      = (["Screening", "Screening"] : List String)[1 - 1]? :=
  ((C4_row2_long_labels ["SCRN", "RTSM"] ["Screening", "Screening"]
    (by decide)).2 1 "RTSM" (by decide)).2 (by decide)

/-- The break index never precedes the column where the scan starts. -/
theorem tfBreakGo_ge (labels : List String) (randIdx : Nat) :
    ∀ (ens : List String) (j : Nat), j ≤ tfBreakGo labels randIdx j ens := by
  intro ens
  induction ens with
  | nil => intro j; simp [tfBreakGo]
  | cons en0 rest ih =>
    intro j
    simp only [tfBreakGo]
    split
    · exact le_trans (Nat.le_succ j) (ih (j + 1))
    · split
      · exact le_refl j
      · exact le_trans (Nat.le_succ j) (ih (j + 1))

/-- Characterization of the Triggering Form loop starting at column j:
the produced row has one entry per remaining event name; a column at or
after the break index is never written; a column before it is written
ELIGIBILITY_CRITERIA when its code is RAND and the empty string
otherwise. -/
theorem tfGo_spec (labels : List String) (randIdx : Nat) :
    ∀ (ens : List String) (j : Nat),
    (tfGo labels randIdx j ens).length = ens.length ∧
    ∀ i en, ens[i]? = some en →
      (tfGo labels randIdx j ens)[i]? =
        some (if tfBreakGo labels randIdx j ens ≤ j + i then none
              else if en = "RAND" then some "ELIGIBILITY_CRITERIA" else some "") := by
  intro ens
  induction ens with
  | nil =>
    intro j
    refine ⟨rfl, fun i en hi => ?_⟩
    simp at hi
  | cons en0 rest ih =>
    intro j
    by_cases h0 : en0 = "RAND"
    · have hgo : tfGo labels randIdx j (en0 :: rest)
          = some "ELIGIBILITY_CRITERIA" :: tfGo labels randIdx (j + 1) rest := by
        simp [tfGo, h0]
      have hbr : tfBreakGo labels randIdx j (en0 :: rest)
          = tfBreakGo labels randIdx (j + 1) rest := by
        simp [tfBreakGo, h0]
      obtain ⟨hlen, hspec⟩ := ih (j + 1)
      refine ⟨by simp [hgo, hlen], fun i en hi => ?_⟩
      match i with
      | 0 =>
        simp only [List.getElem?_cons_zero, Option.some.injEq] at hi
        subst hi
        have hge := tfBreakGo_ge labels randIdx rest (j + 1)
        rw [hgo, hbr]
        simp only [List.getElem?_cons_zero, Option.some.injEq]
        rw [if_neg (by omega), if_pos h0]
      | Nat.succ k =>
        simp only [List.getElem?_cons_succ] at hi
        rw [hgo, hbr]
        simp only [List.getElem?_cons_succ]
        rw [hspec k en hi]
        have harith : j + 1 + k = j + (k + 1) := by omega
        rw [harith]
    · by_cases h1 : randIdx < j ∧ 'V' ∈ (labels.getD j "").data
      · have hgo : tfGo labels randIdx j (en0 :: rest)
            = none :: rest.map (fun _ => (none : Option String)) := by
          simp only [tfGo]
          rw [if_neg h0, if_pos h1]
        have hbr : tfBreakGo labels randIdx j (en0 :: rest) = j := by
          simp only [tfBreakGo]
          rw [if_neg h0, if_pos h1]
        refine ⟨by simp [hgo], fun i en hi => ?_⟩
        match i with
        | 0 =>
          rw [hgo, hbr]
          simp only [List.getElem?_cons_zero, Option.some.injEq]
          rw [if_pos (by omega)]
        | Nat.succ k =>
          simp only [List.getElem?_cons_succ] at hi
          rw [hgo, hbr]
          simp only [List.getElem?_cons_succ, List.getElem?_map, hi, Option.map_some']
          rw [if_pos (by omega)]
      · have hgo : tfGo labels randIdx j (en0 :: rest)
            = some "" :: tfGo labels randIdx (j + 1) rest := by
          simp only [tfGo, if_neg h0, if_neg h1]
        have hbr : tfBreakGo labels randIdx j (en0 :: rest)
            = tfBreakGo labels randIdx (j + 1) rest := by
          simp only [tfBreakGo, if_neg h0, if_neg h1]
        obtain ⟨hlen, hspec⟩ := ih (j + 1)
        refine ⟨by simp [hgo, hlen], fun i en hi => ?_⟩
        match i with
        | 0 =>
          simp only [List.getElem?_cons_zero, Option.some.injEq] at hi
          subst hi
          have hge := tfBreakGo_ge labels randIdx rest (j + 1)
          rw [hgo, hbr]
          simp only [List.getElem?_cons_zero, Option.some.injEq]
          rw [if_neg (by omega), if_neg h0]
        | Nat.succ k =>
          simp only [List.getElem?_cons_succ] at hi
          rw [hgo, hbr]
          simp only [List.getElem?_cons_succ]
          rw [hspec k en hi]
          have harith : j + 1 + k = j + (k + 1) := by omega
          rw [harith]

/-- C3 (amended): in the Triggering Form attribute row the per-column
rule is NOT applied uniformly: cells are written only for columns
strictly before the break index (the first column whose code is not
RAND, strictly after the randomisation index, with V in its label);
such written cells hold ELIGIBILITY_CRITERIA exactly on RAND columns
and the empty string otherwise; the break column and every later
column are left unwritten, so no cell of the row ever holds
RANDOMISATION. -/
theorem C3_triggering_form_truncated (eventNames labels : List String) (randIdx : Nat) :
    (triggeringFormRow eventNames labels randIdx).length = eventNames.length
    ∧ (∀ j en, eventNames[j]? = some en →
        (triggeringFormRow eventNames labels randIdx)[j]? =
          some (if tfBreakIdx eventNames labels randIdx ≤ j then none
                else if en = "RAND" then some "ELIGIBILITY_CRITERIA" else some ""))
    ∧ ∀ j : Nat, (triggeringFormRow eventNames labels randIdx)[j]? ≠ some (some "RANDOMISATION") := by
  obtain ⟨hlen, hspec⟩ := tfGo_spec labels randIdx eventNames 0
  have hspec0 : ∀ j en, eventNames[j]? = some en →
      (triggeringFormRow eventNames labels randIdx)[j]? =
        some (if tfBreakIdx eventNames labels randIdx ≤ j then none
              else if en = "RAND" then some "ELIGIBILITY_CRITERIA" else some "") := by
    intro j en hj
    have := hspec j en hj
    simpa [triggeringFormRow, tfBreakIdx] using this
  refine ⟨hlen, hspec0, fun j => ?_⟩
  rcases hj : eventNames[j]? with _ | en
  · have hlej : eventNames.length ≤ j := List.getElem?_eq_none_iff.mp hj
    have hlen2 : (triggeringFormRow eventNames labels randIdx).length = eventNames.length := by
      simpa [triggeringFormRow] using hlen
    have hrow : (triggeringFormRow eventNames labels randIdx)[j]? = none :=
      List.getElem?_eq_none_iff.mpr (by omega)
    simp [hrow]
  · rw [hspec0 j en hj]
    intro habs
    rw [Option.some.injEq] at habs
    split at habs
    · exact Option.noConfusion habs
    · split at habs <;> simp_all

/-- C3 counterexample: with codes [RAND, V2, V3], labels [V1, V2, V3]
and randomisation index 0, the claim predicts RANDOMISATION in columns
1 and 2, but the code writes column 0 and then leaves columns 1 and 2
unwritten (the RANDOMISATION assignment is followed by break before
the cell write). -/
theorem C3_counterexample :
    triggeringFormRow ["RAND", "V2", "V3"] ["V1", "V2", "V3"] 0
      = [some "ELIGIBILITY_CRITERIA", none, none]
    ∧ specTriggeringFormRow ["RAND", "V2", "V3"] ["V1", "V2", "V3"] 0
      = ["ELIGIBILITY_CRITERIA", "RANDOMISATION", "RANDOMISATION"] := by
  decide

/-- Witness for C3 at the concrete input [RAND, V2, V3], column 2. -/
theorem C3_witness :
    (triggeringFormRow ["RAND", "V2", "V3"] ["V1", "V2", "V3"] 0)[2]?
      = some (if tfBreakIdx ["RAND", "V2", "V3"] ["V1", "V2", "V3"] 0 ≤ 2 then none
              else if "V3" = "RAND" then some "ELIGIBILITY_CRITERIA" else some "") :=
  (C3_triggering_form_truncated ["RAND", "V2", "V3"] ["V1", "V2", "V3"] 0).2.1
    2 "V3" (by decide)

/-- Lowercasing never produces the code of V (86) or P (80). -/
theorem mem_pyStripLower_ne (l : List Nat) (m : Nat) (hm : m ∈ pyStripLower l) :
    m ≠ 86 ∧ m ≠ 80 := by
  unfold pyStripLower at hm
  obtain ⟨n, hn, rfl⟩ := List.mem_map.mp hm
  unfold pyLowerCh
  constructor <;> split <;> omega

/-- The V-number regex cannot match at a position of a string without V. -/
theorem matchVNumAt_eq_none (prev : Option Nat) (s : List Nat)
    (h : ∀ m ∈ s, m ≠ 86) : matchVNumAt prev s = none := by
  cases s with
  | nil => rfl
  | cons c rest =>
    have hc : c ≠ 86 := h c (List.mem_cons_self c rest)
    simp only [matchVNumAt]
    exact if_neg (fun hand => hc hand.1)

/-- The V-number regex search fails on a string without V. -/
theorem searchVNum_eq_none (s : List Nat) (h : ∀ m ∈ s, m ≠ 86) :
    ∀ prev, searchVNum prev s = none := by
  induction s with
  | nil => intro prev; rfl
  | cons c rest ih =>
    intro prev
    have h0 : matchVNumAt prev (c :: rest) = none := matchVNumAt_eq_none prev _ h
    simp only [searchVNum, h0]
    exact ih (fun m hm => h m (List.mem_cons_of_mem c hm)) (some c)

/-- The literal Visit cannot be a prefix of a string without V. -/
theorem startsWithL_visit_false (s : List Nat) (h : ∀ m ∈ s, m ≠ 86) :
    startsWithL (codes "Visit") s = false := by
  have hv : codes "Visit" = 86 :: codes "isit" := by decide
  rw [hv]
  cases s with
  | nil => rfl
  | cons c rest =>
    have hc : c ≠ 86 := h c (List.mem_cons_self c rest)
    have hb : (86 == c) = false := by
      rw [beq_eq_false_iff_ne]
      exact Ne.symm hc
    simp [startsWithL, hb]

/-- The Visit-number regex cannot match at a position of a string without V. -/
theorem matchVisitNumAt_eq_none (prev : Option Nat) (s : List Nat)
    (h : ∀ m ∈ s, m ≠ 86) : matchVisitNumAt prev s = none := by
  simp only [matchVisitNumAt]
  rw [startsWithL_visit_false s h]
  exact if_neg (fun hand => by simp at hand)

/-- The Visit-number regex search fails on a string without V. -/
theorem searchVisitNum_eq_none (s : List Nat) (h : ∀ m ∈ s, m ≠ 86) :
    ∀ prev, searchVisitNum prev s = none := by
  induction s with
  | nil => intro prev; exact matchVisitNumAt_eq_none prev [] (by simp)
  | cons c rest ih =>
    intro prev
    have h0 : matchVisitNumAt prev (c :: rest) = none := matchVisitNumAt_eq_none prev _ h
    simp only [searchVisitNum, h0]
    exact ih (fun m hm => h m (List.mem_cons_of_mem c hm)) (some c)

/-- The P-number regex cannot match at a position of a string without P. -/
theorem matchPNumAt_eq_none (prev : Option Nat) (s : List Nat)
    (h : ∀ m ∈ s, m ≠ 80) : matchPNumAt prev s = none := by
  cases s with
  | nil => rfl
  | cons c rest =>
    have hc : c ≠ 80 := h c (List.mem_cons_self c rest)
    simp only [matchPNumAt]
    exact if_neg (fun hand => hc hand.1)

/-- The P-number regex search fails on a string without P. -/
theorem searchPNum_eq_none (s : List Nat) (h : ∀ m ∈ s, m ≠ 80) :
    ∀ prev, searchPNum prev s = none := by
  induction s with
  | nil => intro prev; rfl
  | cons c rest ih =>
    intro prev
    have h0 : matchPNumAt prev (c :: rest) = none := matchPNumAt_eq_none prev _ h
    simp only [searchPNum, h0]
    exact ih (fun m hm => h m (List.mem_cons_of_mem c hm)) (some c)

/-- C10: for every group string whose normalized form contains none of
screen, random, rtsm, and every label, index and configuration,
make_event_name returns exactly V followed by the decimal digits of
idx + 1, independent of the label: the three visit-number regexes
contain the uppercase letters V (86) and P (80), are matched against
the lowercased label, and therefore never match. -/
theorem C10_regexes_never_match (group label : List Nat) (idx : Nat)
    (cfg : EventNameConfig)
    (h1 : subIn (codes "screen") (pyStripLower group) = false)
    (h2 : subIn (codes "random") (pyStripLower group) = false)
    (h3 : subIn (codes "rtsm") (pyStripLower group) = false) :
    make_event_name group label idx cfg = codes "V" ++ natDigits (idx + 1) := by
  have hV : ∀ m ∈ pyStripLower label, m ≠ 86 :=
    fun m hm => (mem_pyStripLower_ne label m hm).1
  have hP : ∀ m ∈ pyStripLower label, m ≠ 80 :=
    fun m hm => (mem_pyStripLower_ne label m hm).2
  have e1 := searchVNum_eq_none _ hV none
  have e2 := searchVisitNum_eq_none _ hV none
  have e3 := searchPNum_eq_none _ hP none
  have hcodesV : codes "V" = [86] := by decide
  simp only [make_event_name, h1, h2, h3, e1, e2, e3, Bool.false_eq_true, if_false,
    Option.orElse, hcodesV, List.cons_append, List.nil_append]

/-- Witness for C10: group Treatment (matching no override), label V5,
index 0, default configuration. -/
theorem C10_witness :
    subIn (codes "screen") (pyStripLower (codes "Treatment")) = false
    ∧ subIn (codes "random") (pyStripLower (codes "Treatment")) = false
    ∧ subIn (codes "rtsm") (pyStripLower (codes "Treatment")) = false
    ∧ make_event_name (codes "Treatment") (codes "V5") 0 {} = codes "V" ++ natDigits (0 + 1) :=
  ⟨by decide, by decide, by decide,
    C10_regexes_never_match (codes "Treatment") (codes "V5") 0 {}
      (by decide) (by decide) (by decide)⟩

/-- C1: the claim states that make_event_name searches the visit label
with the three visit-number regexes and falls back to V(idx+1) only
when none matches.  The code lowercases the label before searching
while the regex literals V and P are uppercase, so the match path is
dead.  At group Treatment, label V5, idx 0, default configuration: the
first regex does match the raw label (second conjunct), so the claim
predicts the visit template applied to 5, that is V5; the search the
code actually runs, on the lowercased label, fails (third conjunct),
and the code returns the fallback V1 (first conjunct). -/
theorem C1_failing_eval :
    make_event_name (codes "Treatment") (codes "V5") 0 {} = codes "V1"
    ∧ (searchVNum none (codes "V5")).isSome = true
    ∧ searchVNum none (pyStripLower (codes "V5")) = none := by
  decide

/-- The merge loop always emits at least the open run. -/
theorem runsAux_ne_nil (rest : List String) :
    ∀ g0 start j, runsAux g0 start j rest ≠ [] := by
  induction rest with
  | nil => intro g0 start j; simp [runsAux]
  | cons g rest2 ih =>
    intro g0 start j
    by_cases h : g = g0
    · simp only [runsAux, if_pos h]
      exact ih g0 start (j + 1)
    · simp only [runsAux, if_neg h]
      simp

/-- The first emitted range starts at the start of the open run and
carries its value. -/
theorem runsAux_head (rest : List String) :
    ∀ g0 start j, ∃ e tl, runsAux g0 start j rest = (start, e, g0) :: tl := by
  induction rest with
  | nil =>
    intro g0 start j
    exact ⟨j - 1, [], rfl⟩
  | cons g rest2 ih =>
    intro g0 start j
    by_cases h : g = g0
    · simp only [runsAux, if_pos h]
      exact ih g0 start (j + 1)
    · simp only [runsAux, if_neg h]
      exact ⟨j - 1, runsAux g j (j + 1) rest2, rfl⟩

/-- The emitted ranges form a contiguous ordered chain from the start
of the open run. -/
theorem runsAux_chain (rest : List String) :
    ∀ g0 start j, start < j → rangesChain start (runsAux g0 start j rest) := by
  induction rest with
  | nil =>
    intro g0 start j hsj
    show start = start ∧ start ≤ j - 1 ∧ rangesChain (j - 1 + 1) []
    exact ⟨rfl, by omega, trivial⟩
  | cons g rest2 ih =>
    intro g0 start j hsj
    by_cases h : g = g0
    · simp only [runsAux, if_pos h]
      exact ih g0 start (j + 1) (by omega)
    · simp only [runsAux, if_neg h]
      show start = start ∧ start ≤ j - 1 ∧ rangesChain (j - 1 + 1) (runsAux g j (j + 1) rest2)
      refine ⟨rfl, by omega, ?_⟩
      have hj : j - 1 + 1 = j := by omega
      rw [hj]
      exact ih g j (j + 1) (by omega)

/-- The last emitted range ends at the last consumed index. -/
theorem runsAux_last (rest : List String) :
    ∀ g0 start j, start < j →
      endOfRuns 0 (runsAux g0 start j rest) = j + rest.length - 1 := by
  induction rest with
  | nil =>
    intro g0 start j hsj
    simp [runsAux, endOfRuns]
  | cons g rest2 ih =>
    intro g0 start j hsj
    by_cases h : g = g0
    · simp only [runsAux, if_pos h]
      rw [ih g0 start (j + 1) (by omega)]
      simp only [List.length_cons]
      omega
    · simp only [runsAux, if_neg h]
      obtain ⟨e, tl, heq⟩ := runsAux_head rest2 g j (j + 1)
      rw [heq]
      simp only [endOfRuns, List.getLast?_cons_cons]
      have := ih g j (j + 1) (by omega)
      rw [heq] at this
      simp only [endOfRuns, List.length_cons] at this ⊢
      omega

/-- Every member column of every emitted range holds the anchor value,
provided the past of the open run is constant and the future matches
the remaining visits. -/
theorem runsAux_values (rest : List String) :
    ∀ g0 start j (gs : List String), start < j →
      (∀ k, start ≤ k → k < j → gs[k]? = some g0) →
      (∀ i : Nat, gs[j + i]? = rest[i]?) →
      rangeValuesOk gs (runsAux g0 start j rest) := by
  induction rest with
  | nil =>
    intro g0 start j gs hsj hpast _
    intro r hr k hk1 hk2
    simp only [runsAux, List.mem_singleton] at hr
    subst hr
    exact hpast k hk1 (by simp only at hk2; omega)
  | cons g rest2 ih =>
    intro g0 start j gs hsj hpast hfut
    by_cases h : g = g0
    · simp only [runsAux, if_pos h]
      refine ih g0 start (j + 1) gs (by omega) ?_ ?_
      · intro k hk1 hk2
        rcases Nat.lt_or_ge k j with hk | hk
        · exact hpast k hk1 hk
        · have hkj : k = j := by omega
          subst hkj
          have := hfut 0
          simpa [h] using this
      · intro i
        have h2 := hfut (i + 1)
        rw [List.getElem?_cons_succ] at h2
        have h3 : j + 1 + i = j + (i + 1) := by omega
        rw [h3]
        exact h2
    · simp only [runsAux, if_neg h]
      intro r hr k hk1 hk2
      rcases List.mem_cons.mp hr with hr0 | hr1
      · subst hr0
        exact hpast k hk1 (by simp only at hk2; omega)
      · refine ih g j (j + 1) gs (by omega) ?_ ?_ r hr1 k hk1 hk2
        · intro k2 hk21 hk22
          have hkj : k2 = j := by omega
          subst hkj
          simpa using hfut 0
        · intro i
          have h2 := hfut (i + 1)
          rw [List.getElem?_cons_succ] at h2
          have h3 : j + 1 + i = j + (i + 1) := by omega
          rw [h3]
          exact h2

/-- Adjacent emitted ranges carry different values. -/
theorem runsAux_adj (rest : List String) :
    ∀ g0 start j, adjChange (runsAux g0 start j rest) := by
  induction rest with
  | nil =>
    intro g0 start j
    simp only [runsAux]
    trivial
  | cons g rest2 ih =>
    intro g0 start j
    by_cases h : g = g0
    · simp only [runsAux, if_pos h]
      exact ih g0 start (j + 1)
    · simp only [runsAux, if_neg h]
      obtain ⟨e, tl, heq⟩ := runsAux_head rest2 g j (j + 1)
      rw [heq]
      simp only [adjChange]
      refine ⟨fun he => h he.symm, ?_⟩
      have := ih g j (j + 1)
      rw [heq] at this
      exact this

/-- A column left of a chain is covered by none of its ranges. -/
theorem chain_cover_zero : ∀ (rs : List (Nat × Nat × String)) (s j : Nat),
    rangesChain s rs → j < s → coverCount rs j = 0 := by
  intro rs
  induction rs with
  | nil => intro s j hc hj; rfl
  | cons r tl ih =>
    rcases r with ⟨a, b, v⟩
    intro s j hc hj
    obtain ⟨h1, h2, h3⟩ : a = s ∧ a ≤ b ∧ rangesChain (b + 1) tl := hc
    simp only [coverCount, List.filter_cons, decide_eq_true_eq]
    rw [if_neg (fun hand => absurd (hand.1 : a ≤ j) (by omega))]
    exact ih (b + 1) j h3 (by omega)

/-- A column between the start of a nonempty chain and its last end is
covered by exactly one of its ranges. -/
theorem chain_cover_one : ∀ (rs : List (Nat × Nat × String)) (s j : Nat),
    rangesChain s rs → s ≤ j → j ≤ endOfRuns 0 rs → rs ≠ [] →
    coverCount rs j = 1 := by
  intro rs
  induction rs with
  | nil => intro s j _ _ _ hne; exact absurd rfl hne
  | cons r tl ih =>
    rcases r with ⟨a, b, v⟩
    intro s j hc hsj hje _
    obtain ⟨h1, h2, h3⟩ : a = s ∧ a ≤ b ∧ rangesChain (b + 1) tl := hc
    by_cases hjb : j ≤ b
    · simp only [coverCount, List.filter_cons, decide_eq_true_eq]
      rw [if_pos (⟨(by omega : a ≤ j), (by omega : j ≤ b)⟩ :
        (a, b, v).1 ≤ j ∧ j ≤ (a, b, v).2.1)]
      simp only [List.length_cons]
      have h0 : coverCount tl j = 0 := chain_cover_zero tl (b + 1) j h3 (by omega)
      simp only [coverCount] at h0
      omega
    · cases tl with
      | nil =>
        exfalso
        simp only [endOfRuns, List.getLast?_singleton] at hje
        have hjb2 : j ≤ b := hje
        omega
      | cons r2 tl2 =>
        simp only [coverCount, List.filter_cons, decide_eq_true_eq]
        rw [if_neg (fun hand => absurd (hand.2 : j ≤ b) (by omega))]
        have hje2 : j ≤ endOfRuns 0 (r2 :: tl2) := by
          simp only [endOfRuns, List.getLast?_cons_cons] at hje ⊢
          exact hje
        have hcov := ih (b + 1) j h3 (by omega) hje2 (by simp)
        simp only [coverCount, List.filter_cons, decide_eq_true_eq] at hcov
        exact hcov

/-- C5: for every nonempty ordered visit sequence, the row-1
event-group merge ranges form an exact partition of the visit columns
by run-length grouping: the ranges are contiguous, ordered and start at
column 0; the final range ends at the last visit column; every member
column of a range holds exactly the anchor group value; adjacent ranges
have different values (equal adjacent groups share a range, a change
starts a new one); and every visit column is covered by exactly one
range. -/
theorem C5_merge_partition (gs : List String) (hne : gs ≠ []) :
    rangesChain 0 (mergeRuns gs)
    ∧ endOfRuns 0 (mergeRuns gs) = gs.length - 1
    ∧ rangeValuesOk gs (mergeRuns gs)
    ∧ adjChange (mergeRuns gs)
    ∧ ∀ j : Nat, j < gs.length → coverCount (mergeRuns gs) j = 1 := by
  rcases gs with _ | ⟨g, rest⟩
  · exact absurd rfl hne
  · simp only [mergeRuns]
    have hchain := runsAux_chain rest g 0 1 (by omega)
    have hlast := runsAux_last rest g 0 1 (by omega)
    refine ⟨hchain, ?_, ?_, runsAux_adj rest g 0 1, ?_⟩
    · rw [hlast]
      simp only [List.length_cons]
      omega
    · refine runsAux_values rest g 0 1 (g :: rest) (by omega) ?_ ?_
      · intro k hk0 hk1
        have hk : k = 0 := by omega
        subst hk
        exact List.getElem?_cons_zero
      · intro i
        have h1i : 1 + i = i + 1 := by omega
        rw [h1i]
        exact List.getElem?_cons_succ
    · intro j hj
      refine chain_cover_one (runsAux g 0 1 rest) 0 j hchain (by omega) ?_
        (runsAux_ne_nil rest g 0 1)
      rw [hlast]
      simp only [List.length_cons] at hj ⊢
      omega

/-- Witness for C5 at a concrete three-visit sequence with two groups. -/
theorem C5_witness :
    (["Screening", "Treatment", "Treatment"] : List String) ≠ []
    ∧ (rangesChain 0 (mergeRuns ["Screening", "Treatment", "Treatment"])
      ∧ endOfRuns 0 (mergeRuns ["Screening", "Treatment", "Treatment"])
        = (["Screening", "Treatment", "Treatment"] : List String).length - 1
      ∧ rangeValuesOk ["Screening", "Treatment", "Treatment"]
          (mergeRuns ["Screening", "Treatment", "Treatment"])
      ∧ adjChange (mergeRuns ["Screening", "Treatment", "Treatment"])
      ∧ ∀ j : Nat, j < (["Screening", "Treatment", "Treatment"] : List String).length →
          coverCount (mergeRuns ["Screening", "Treatment", "Treatment"]) j = 1) :=
  ⟨by decide, C5_merge_partition ["Screening", "Treatment", "Treatment"] (by decide)⟩

end PTD
